import Mathlib

/-!
Verification of the MemoraAI retrieval pipeline.

This file gives a shallow embedding of the retrieval-ranking core of the
repository (app/elastic_memory.py and the ask endpoint of app/main.py) and
proves or refutes the behavioural claims made about it.  Elasticsearch is an
external collaborator: requests are modelled as explicit body values, and the
store itself is a parameter (a function from bodies to results) constrained by
the documented store contract where a claim needs it.  Scores and vector
components are modelled as rationals.
-/

namespace MemoraAI

/-- A stored document, the `_source` written by `upsert_chunk` in
app/elastic_memory.py. -/
structure EsDoc where
  project_id : String
  text : String
  tags : List String
  embedding : List ℚ
deriving Repr, DecidableEq

/-- One Elasticsearch hit: a source document together with its `_score`. -/
structure EsHit where
  source : EsDoc
  score : ℚ
deriving Repr, DecidableEq

/-- The `{"text": ..., "score": ...}` projection that `knn_search` and
`hybrid_search` return to their callers. -/
structure SearchResult where
  text : String
  score : ℚ
deriving Repr, DecidableEq

/-- The lexical `match` clause on field `text` as built in
app/elastic_memory.py (boost, optional fuzziness). -/
structure MatchClause where
  query : String
  boost : ℚ
  fuzziness : Option String
deriving Repr, DecidableEq

/-- The `knn` clause on field `embedding` (query vector, `k`,
`num_candidates`, optional boost). -/
structure KnnClause where
  field : String
  query_vector : List ℚ
  k : Nat
  num_candidates : Nat
  boost : Option ℚ
deriving Repr, DecidableEq

/-- The native reciprocal-rank-fusion stage (`"rank": {"rrf": ...}`). -/
structure RrfRank where
  rank_window_size : Nat
  rank_constant : Nat
deriving Repr, DecidableEq

/-- The shape of the three request bodies built in app/elastic_memory.py:
a size, an optional `_source` projection, a `term` filter on `project_id`,
an optional `must` knn clause, optional `should` match and knn clauses with
`minimum_should_match`, and an optional rank-fusion stage. -/
structure SearchBody where
  size : Nat
  source_fields : Option (List String)
  filter_project_id : String
  must_knn : Option KnnClause
  should_match : Option MatchClause
  should_knn : Option KnnClause
  minimum_should_match : Option Nat
  rank_rrf : Option RrfRank
deriving Repr, DecidableEq

/-- The body built by `knn_search` (app/elastic_memory.py, lines 49-66):
size `k`, filter on `project_id`, a `must` knn clause with `k` and
`num_candidates = max(20, k*5)`. -/
def knnSearchBody (project_id : String) (query_vec : List ℚ) (k : Nat) :
    SearchBody where
  size := k
  source_fields := none
  filter_project_id := project_id
  must_knn := some ⟨"embedding", query_vec, k, max 20 (k * 5), none⟩
  should_match := none
  should_knn := none
  minimum_should_match := none
  rank_rrf := none

/-- The primary body built by `hybrid_search` (app/elastic_memory.py,
lines 80-118): size `max(k*3, 15)`, `_source` projection, filter on
`project_id`, a fuzzy match clause with boost 2.0, a knn clause with
`k = max(k*3, 15)`, `num_candidates = max(60, k*10)` and boost 1.0,
`minimum_should_match = 1`, and the native rrf rank stage. -/
def hybridPrimaryBody (project_id query_text : String) (query_vec : List ℚ)
    (k : Nat) : SearchBody where
  size := max (k * 3) 15
  source_fields := some ["text", "tags", "project_id"]
  filter_project_id := project_id
  must_knn := none
  should_match := some ⟨query_text, 2, some "AUTO"⟩
  should_knn := some ⟨"embedding", query_vec, max (k * 3) 15, max 60 (k * 10), some 1⟩
  minimum_should_match := some 1
  rank_rrf := some ⟨max (k * 3) 15, 20⟩

/-- The fallback body built by `hybrid_search` (app/elastic_memory.py,
lines 126-145): size `max(k*3, 15)`, filter on `project_id`, a match clause
with boost 2.0 but no fuzziness, a knn clause with `k = max(k*3, 15)` and
`num_candidates = max(60, k*10)` but no boost, `minimum_should_match = 1`,
and no rank stage. -/
def hybridFallbackBody (project_id query_text : String) (query_vec : List ℚ)
    (k : Nat) : SearchBody where
  size := max (k * 3) 15
  source_fields := none
  filter_project_id := project_id
  must_knn := none
  should_match := some ⟨query_text, 2, none⟩
  should_knn := some ⟨"embedding", query_vec, max (k * 3) 15, max 60 (k * 10), none⟩
  minimum_should_match := some 1
  rank_rrf := none

/-- A body with the native rank-fusion stage removed and nothing else
changed. -/
def removeRankStage (b : SearchBody) : SearchBody :=
  { b with rank_rrf := none }

/-- C5 counterexample: the fallback body is not the primary body with only
the rank-fusion stage removed; at concrete inputs the two still differ
(the fallback drops the `_source` projection, the `fuzziness: "AUTO"` option
of the match clause and the explicit knn boost). -/
theorem fallback_not_primary_without_rank :
    removeRankStage (hybridPrimaryBody "p1" "where" [1] 8) ≠
      hybridFallbackBody "p1" "where" [1] 8 := by
  decide

/-- C5 (amended): the fallback body agrees with the primary body on size,
`project_id` filter, match query and its 2.0 boost, knn `k` and
`num_candidates`, and `minimum_should_match`; it removes the rank-fusion
stage, but it also drops the `_source` projection, the fuzzy matching of the
match clause, and the explicit 1.0 knn boost. -/
theorem fallback_vs_primary (p qt : String) (qv : List ℚ) (k : Nat) :
    (hybridFallbackBody p qt qv k).size = (hybridPrimaryBody p qt qv k).size
    ∧ (hybridFallbackBody p qt qv k).filter_project_id
        = (hybridPrimaryBody p qt qv k).filter_project_id
    ∧ (hybridFallbackBody p qt qv k).minimum_should_match
        = (hybridPrimaryBody p qt qv k).minimum_should_match
    ∧ (hybridFallbackBody p qt qv k).should_match.map MatchClause.query
        = (hybridPrimaryBody p qt qv k).should_match.map MatchClause.query
    ∧ (hybridFallbackBody p qt qv k).should_match.map MatchClause.boost
        = (hybridPrimaryBody p qt qv k).should_match.map MatchClause.boost
    ∧ (hybridFallbackBody p qt qv k).should_knn.map KnnClause.k
        = (hybridPrimaryBody p qt qv k).should_knn.map KnnClause.k
    ∧ (hybridFallbackBody p qt qv k).should_knn.map KnnClause.num_candidates
        = (hybridPrimaryBody p qt qv k).should_knn.map KnnClause.num_candidates
    ∧ (hybridFallbackBody p qt qv k).rank_rrf = none
    ∧ (hybridPrimaryBody p qt qv k).rank_rrf = some ⟨max (k * 3) 15, 20⟩
    ∧ (hybridFallbackBody p qt qv k).should_match.bind MatchClause.fuzziness = none
    ∧ (hybridPrimaryBody p qt qv k).should_match.bind MatchClause.fuzziness = some "AUTO"
    ∧ (hybridFallbackBody p qt qv k).source_fields = none
    ∧ (hybridPrimaryBody p qt qv k).source_fields = some ["text", "tags", "project_id"]
    ∧ (hybridFallbackBody p qt qv k).should_knn.bind KnnClause.boost = none
    ∧ (hybridPrimaryBody p qt qv k).should_knn.bind KnnClause.boost = some 1 := by
  refine ⟨rfl, rfl, rfl, rfl, rfl, rfl, rfl, rfl, rfl, rfl, rfl, rfl, rfl, rfl, rfl⟩

/-- Extraction of the text/score projection applied to the store's hits
(app/elastic_memory.py, lines 69 and 150). -/
def hitToResult (h : EsHit) : SearchResult :=
  ⟨h.source.text, h.score⟩

/-- The try/except of `hybrid_search` before extraction (lines 120-146):
issue the primary fused body; on any exception issue the fallback body
instead.  The store is a parameter: a function from bodies to either an
error or a hit list. -/
def hybrid_search_raw (search : SearchBody → Except String (List EsHit))
    (project_id query_text : String) (query_vec : List ℚ) (k : Nat) :
    Except String (List EsHit) :=
  match search (hybridPrimaryBody project_id query_text query_vec k) with
  | .ok res => .ok res
  | .error _ => search (hybridFallbackBody project_id query_text query_vec k)

/-- The function `hybrid_search` of app/elastic_memory.py (lines 71-157):
run the primary request with fallback, then extract `{text, score}` pairs. -/
def hybrid_search (search : SearchBody → Except String (List EsHit))
    (project_id query_text : String) (query_vec : List ℚ) (k : Nat) :
    Except String (List SearchResult) :=
  (hybrid_search_raw search project_id query_text query_vec k).map
    (List.map hitToResult)

/-- The single request issued by `knn_search` (lines 47-68); its errors are
not caught. -/
def knn_search_raw (search : SearchBody → Except String (List EsHit))
    (project_id : String) (query_vec : List ℚ) (k : Nat) :
    Except String (List EsHit) :=
  search (knnSearchBody project_id query_vec k)

/-- The function `knn_search` of app/elastic_memory.py (lines 47-69). -/
def knn_search (search : SearchBody → Except String (List EsHit))
    (project_id : String) (query_vec : List ℚ) (k : Nat) :
    Except String (List SearchResult) :=
  (knn_search_raw search project_id query_vec k).map (List.map hitToResult)

/-- Documented store contract: the store honours the `term` filter, so every
returned hit's source `project_id` equals the body's filter value. -/
def HonorsFilter (search : SearchBody → Except String (List EsHit)) : Prop :=
  ∀ body hits, search body = .ok hits →
    ∀ h ∈ hits, h.source.project_id = body.filter_project_id

/-- Documented store contract: the store returns at most `size` hits. -/
def HonorsSize (search : SearchBody → Except String (List EsHit)) : Prop :=
  ∀ body hits, search body = .ok hits → hits.length ≤ body.size

/-- Documented store contract: hits come back ranked by score,
non-increasing. -/
def SortedByScore (search : SearchBody → Except String (List EsHit)) : Prop :=
  ∀ body hits, search body = .ok hits →
    List.Chain' (fun a b => b.score ≤ a.score) hits

/-- C1: for any store honouring the term filter and any two distinct
projects, every hit produced by the `hybrid_search` request flow (primary or
fallback) and by `knn_search` when scoped to `p1` belongs to `p1` and hence
never to `p2`: both request bodies carry the `project_id` filter. -/
theorem tenant_isolation (search : SearchBody → Except String (List EsHit))
    (hf : HonorsFilter search) (p1 p2 query_text : String)
    (query_vec : List ℚ) (k : Nat) (hne : p1 ≠ p2) :
    (∀ hits, hybrid_search_raw search p1 query_text query_vec k = .ok hits →
        ∀ h ∈ hits, h.source.project_id = p1 ∧ h.source.project_id ≠ p2)
    ∧ (∀ hits, knn_search_raw search p1 query_vec k = .ok hits →
        ∀ h ∈ hits, h.source.project_id = p1 ∧ h.source.project_id ≠ p2) := by
  constructor
  · intro hits hrun h hmem
    unfold hybrid_search_raw at hrun
    split at hrun
    case _ res heq =>
      obtain rfl : res = hits := Except.ok.inj hrun
      have hp : h.source.project_id = p1 := hf _ _ heq h hmem
      exact ⟨hp, hp ▸ hne⟩
    case _ e heq =>
      have hp : h.source.project_id = p1 := hf _ _ hrun h hmem
      exact ⟨hp, hp ▸ hne⟩
  · intro hits hrun h hmem
    have hp : h.source.project_id = p1 := hf _ _ hrun h hmem
    exact ⟨hp, hp ▸ hne⟩

/-- A tiny concrete store used by witnesses: two documents under projects
p1 and p2; every query returns exactly the stored documents matching its
filter, each with score 1. -/
def demoDocs : List EsDoc :=
  [⟨"p1", "alice lives in paris", [], [1]⟩,
   ⟨"p2", "bob lives in rome", [], [1]⟩]

/-- Filter-respecting demo store. -/
def demoSearch (body : SearchBody) : Except String (List EsHit) :=
  .ok ((demoDocs.filter (fun d => d.project_id = body.filter_project_id)).map
    (fun d => ⟨d, 1⟩))

/-- The demo store honours the filter contract. -/
theorem demoSearch_honors_filter : HonorsFilter demoSearch := by
  intro body hits hrun h hmem
  obtain rfl : _ = hits := Except.ok.inj hrun
  simp only [List.mem_map, List.mem_filter, decide_eq_true_eq] at hmem
  obtain ⟨d, ⟨_, hfilt⟩, rfl⟩ := hmem
  exact hfilt

/-- C1 witness: running the hybrid flow on the demo store under p1 returns
the p1 document, and the isolation theorem applies to it. -/
theorem tenant_isolation_witness :
    (EsHit.mk ⟨"p1", "alice lives in paris", [], [1]⟩ 1).source.project_id = "p1"
    ∧ (EsHit.mk ⟨"p1", "alice lives in paris", [], [1]⟩ 1).source.project_id ≠ "p2" :=
  (tenant_isolation demoSearch demoSearch_honors_filter "p1" "p2" "where" [1] 8
      (by decide)).1
    [⟨⟨"p1", "alice lives in paris", [], [1]⟩, 1⟩] rfl _ (by simp)

/-- C4: if the primary fused request fails with any exception, then
`hybrid_search` issues the fallback request instead and returns its outcome;
the exception of the primary attempt is never propagated to the caller. -/
theorem fallback_on_primary_error
    (search : SearchBody → Except String (List EsHit))
    (project_id query_text : String) (query_vec : List ℚ) (k : Nat)
    (e : String)
    (hp : search (hybridPrimaryBody project_id query_text query_vec k)
        = .error e) :
    hybrid_search search project_id query_text query_vec k
      = (search (hybridFallbackBody project_id query_text query_vec k)).map
          (List.map hitToResult) := by
  unfold hybrid_search hybrid_search_raw
  rw [hp]

/-- A store that rejects every request carrying the rrf rank stage, as an
Elasticsearch without native rank fusion does. -/
def rrfRejectingSearch (body : SearchBody) : Except String (List EsHit) :=
  if body.rank_rrf.isSome then .error "parsing_exception: unknown field rank"
  else .ok []

/-- C4 witness: with a store rejecting the rank stage, the hybrid flow at
concrete inputs equals the extracted fallback response. -/
theorem fallback_on_primary_error_witness :
    hybrid_search rrfRejectingSearch "p1" "where" [1] 8
      = (rrfRejectingSearch (hybridFallbackBody "p1" "where" [1] 8)).map
          (List.map hitToResult) :=
  fallback_on_primary_error rrfRejectingSearch "p1" "where" [1] 8
    "parsing_exception: unknown field rank" rfl

/-- C6: for any store honouring the size and ordering contract, a hybrid
search with parameter k returns at most max(3k, 15) results, ordered by
non-increasing score (both the primary and the fallback body request
size max(k*3, 15)). -/
theorem hybrid_search_size_and_order
    (search : SearchBody → Except String (List EsHit))
    (hs : HonorsSize search) (hsort : SortedByScore search)
    (project_id query_text : String) (query_vec : List ℚ) (k : Nat)
    (results : List SearchResult)
    (hrun : hybrid_search search project_id query_text query_vec k
        = .ok results) :
    results.length ≤ max (3 * k) 15
    ∧ List.Chain' (fun a b => b.score ≤ a.score) results := by
  unfold hybrid_search at hrun
  cases hraw : hybrid_search_raw search project_id query_text query_vec k with
  | error e => rw [hraw] at hrun; exact (Except.noConfusion hrun)
  | ok hits =>
    rw [hraw] at hrun
    obtain rfl : List.map hitToResult hits = results := Except.ok.inj hrun
    have hlen : hits.length ≤ max (k * 3) 15 := by
      unfold hybrid_search_raw at hraw
      split at hraw
      case _ res heq =>
        obtain rfl : res = hits := Except.ok.inj hraw
        exact hs _ _ heq
      case _ e heq =>
        exact hs _ _ hraw
    have hchain : List.Chain' (fun a b => b.score ≤ a.score) hits := by
      unfold hybrid_search_raw at hraw
      split at hraw
      case _ res heq =>
        obtain rfl : res = hits := Except.ok.inj hraw
        exact hsort _ _ heq
      case _ e heq =>
        exact hsort _ _ hraw
    constructor
    · rw [List.length_map, Nat.mul_comm 3 k] at *
      exact hlen
    · rw [List.chain'_map]
      exact hchain

/-- A demo store returning a fixed score-sorted hit list truncated to the
requested size. -/
def demoSortedSearch (body : SearchBody) : Except String (List EsHit) :=
  .ok (List.take body.size
    [⟨⟨"p1", "alpha", [], [1]⟩, 3⟩, ⟨⟨"p1", "beta", [], [1]⟩, 1⟩])

/-- The sorted demo store honours the size contract. -/
theorem demoSortedSearch_size : HonorsSize demoSortedSearch := by
  intro body hits hrun
  obtain rfl : _ = hits := Except.ok.inj hrun
  exact List.length_take_le _ _

/-- The sorted demo store returns hits in non-increasing score order. -/
theorem demoSortedSearch_sorted : SortedByScore demoSortedSearch := by
  intro body hits hrun
  obtain rfl : _ = hits := Except.ok.inj hrun
  rcases body.size with _ | _ | n
  · exact List.chain'_nil
  · exact List.chain'_singleton _
  · show List.Chain' _ (List.take (n + 2) _)
    rw [List.take_of_length_le (by simp)]
    exact List.chain'_cons.mpr ⟨by norm_num, List.chain'_singleton _⟩

/-- C6 witness: on the sorted demo store with k = 8, the returned results
satisfy the size bound and the ordering. -/
theorem hybrid_search_size_and_order_witness :
    ([⟨"alpha", 3⟩, ⟨"beta", 1⟩] : List SearchResult).length ≤ max (3 * 8) 15
    ∧ List.Chain' (fun a b => b.score ≤ a.score)
        ([⟨"alpha", 3⟩, ⟨"beta", 1⟩] : List SearchResult) :=
  hybrid_search_size_and_order demoSortedSearch demoSortedSearch_size
    demoSortedSearch_sorted "p1" "where" [1] 8 _ rfl

/-- Leftmost maximiser of a score function over a list of candidate
indices; on equal scores the earlier (lower-ranked) index wins, the
tie-break the spec prescribes. -/
def argmaxIdx (score : Nat → ℚ) : List Nat → Option Nat
  | [] => none
  | i :: rest =>
    match argmaxIdx score rest with
    | none => some i
    | some j => if score i < score j then some j else some i

/-- The index returned by `argmaxIdx` belongs to the candidate list. -/
theorem argmaxIdx_mem (score : Nat → ℚ) (R : List Nat) (i : Nat)
    (h : argmaxIdx score R = some i) : i ∈ R := by
  induction R generalizing i with
  | nil => exact Option.noConfusion h
  | cons a rest ih =>
    unfold argmaxIdx at h
    split at h
    · obtain rfl := Option.some.inj h
      exact List.mem_cons_self a rest
    · next j hrec =>
      split at h
      · obtain rfl := Option.some.inj h
        exact List.mem_cons_of_mem a (ih _ hrec)
      · obtain rfl := Option.some.inj h
        exact List.mem_cons_self a rest

/-- A nonempty candidate list always has a maximiser. -/
theorem argmaxIdx_isSome (score : Nat → ℚ) (R : List Nat) (h : R ≠ []) :
    (argmaxIdx score R).isSome := by
  cases R with
  | nil => exact absurd rfl h
  | cons a rest =>
    unfold argmaxIdx
    cases argmaxIdx score rest with
    | none => rfl
    | some j =>
      dsimp only
      split
      · rfl
      · rfl

/-- The index returned by `argmaxIdx` scores at least as high as every
candidate. -/
theorem argmaxIdx_le (score : Nat → ℚ) (R : List Nat) (i : Nat)
    (h : argmaxIdx score R = some i) : ∀ j ∈ R, score j ≤ score i := by
  induction R generalizing i with
  | nil => intro j hj; cases hj
  | cons a rest ih =>
    intro j hj
    unfold argmaxIdx at h
    split at h
    · next hrec =>
      obtain rfl := Option.some.inj h
      cases rest with
      | nil =>
        rcases List.mem_singleton.mp hj with rfl
        exact le_refl _
      | cons b r2 =>
        have hsome := argmaxIdx_isSome score (b :: r2) (by simp)
        rw [hrec] at hsome
        exact absurd hsome (by simp)
    · next m hrec =>
      split at h
      · next hc =>
        obtain rfl := Option.some.inj h
        rcases List.mem_cons.mp hj with rfl | hj2
        · exact le_of_lt hc
        · exact ih m hrec j hj2
      · next hc =>
        obtain rfl := Option.some.inj h
        rcases List.mem_cons.mp hj with rfl | hj2
        · exact le_refl _
        · exact le_trans (ih m hrec j hj2) (le_of_not_lt hc)

/-- When one candidate strictly dominates all others, `argmaxIdx` returns
exactly that candidate. -/
theorem argmaxIdx_eq_of_unique (score : Nat → ℚ) (R : List Nat) (i0 : Nat)
    (h0 : i0 ∈ R) (hu : ∀ j ∈ R, j ≠ i0 → score j < score i0) :
    argmaxIdx score R = some i0 := by
  have hne : R ≠ [] := List.ne_nil_of_mem h0
  obtain ⟨i, hi⟩ := Option.isSome_iff_exists.mp (argmaxIdx_isSome score R hne)
  by_cases hii : i = i0
  · subst hii; exact hi
  · have h1 : score i0 ≤ score i := argmaxIdx_le score R i hi i0 h0
    have h2 : score i < score i0 := hu i (argmaxIdx_mem score R i hi) hii
    exact absurd h1 (not_le_of_lt h2)

/-- Modelled from the spec: the redundancy term of the MMR objective, the
maximum similarity of candidate i to the already selected indices; 0 for
the first pick (empty selection).  The reranker lives in app/retriever.py,
which is not under src. -/
def maxSimSelected (simPair : Nat → Nat → ℚ) (sel : List Nat) (i : Nat) : ℚ :=
  match sel with
  | [] => 0
  | j :: rest => (rest.map (fun j2 => simPair i j2)).foldl max (simPair i j)

/-- Modelled from the spec: the greedy MMR objective
lam * sim(query, i) - (1 - lam) * max over selected j of sim(i, j). -/
def mmrScore (lam : ℚ) (simQ : Nat → ℚ) (simPair : Nat → Nat → ℚ)
    (sel : List Nat) (i : Nat) : ℚ :=
  lam * simQ i - (1 - lam) * maxSimSelected simPair sel i

/-- Modelled from the spec: the greedy MMR loop; each step moves the
best-scoring remaining index (ties to the lower index) from the remaining
pool into the selection, until the requested number of picks is made or the
pool is exhausted. -/
def mmrLoop (lam : ℚ) (simQ : Nat → ℚ) (simPair : Nat → Nat → ℚ) :
    Nat → List Nat → List Nat → List Nat
  | 0, _, _ => []
  | fuel + 1, sel, rem =>
    match argmaxIdx (mmrScore lam simQ simPair sel) rem with
    | none => []
    | some i => i :: mmrLoop lam simQ simPair fuel (sel ++ [i]) (rem.erase i)

/-- Modelled from the spec: `mmr` of app/retriever.py (file not under src):
maximal-marginal-relevance selection of min(k, |pool|) candidate indices,
given the query vector and one embedding per candidate.  Cosine similarity
is abstracted as the `sim` parameter and the diversity trade-off weight as
`lam`, both of which the spec leaves as named tunable parameters. -/
def mmr (sim : List ℚ → List ℚ → ℚ) (lam : ℚ) (qVec : List ℚ)
    (docVecs : List (List ℚ)) (k : Nat) : List Nat :=
  mmrLoop lam (fun i => sim qVec (docVecs.getD i []))
    (fun i j => sim (docVecs.getD i []) (docVecs.getD j []))
    (min k docVecs.length) [] (List.range docVecs.length)

/-- Unfolding of one successful step of the MMR loop. -/
theorem mmrLoop_succ (lam : ℚ) (simQ : Nat → ℚ) (simPair : Nat → Nat → ℚ)
    (fuel : Nat) (sel rem : List Nat) (i : Nat)
    (h : argmaxIdx (mmrScore lam simQ simPair sel) rem = some i) :
    mmrLoop lam simQ simPair (fuel + 1) sel rem
      = i :: mmrLoop lam simQ simPair fuel (sel ++ [i]) (rem.erase i) := by
  conv_lhs => unfold mmrLoop
  rw [h]

/-- Every index the MMR loop emits comes from the remaining pool. -/
theorem mmrLoop_subset (lam : ℚ) (simQ : Nat → ℚ) (simPair : Nat → Nat → ℚ)
    (fuel : Nat) : ∀ sel rem, ∀ x ∈ mmrLoop lam simQ simPair fuel sel rem,
      x ∈ rem := by
  induction fuel with
  | zero => intro sel rem x hx; simp [mmrLoop] at hx
  | succ n ih =>
    intro sel rem x hx
    unfold mmrLoop at hx
    cases hh : argmaxIdx (mmrScore lam simQ simPair sel) rem with
    | none => rw [hh] at hx; cases hx
    | some i =>
      rw [hh] at hx
      rcases List.mem_cons.mp hx with rfl | hx2
      · exact argmaxIdx_mem _ _ _ hh
      · exact List.mem_of_mem_erase (ih _ _ _ hx2)

/-- The MMR loop never emits an index twice. -/
theorem mmrLoop_nodup (lam : ℚ) (simQ : Nat → ℚ) (simPair : Nat → Nat → ℚ)
    (fuel : Nat) : ∀ sel rem, rem.Nodup →
      (mmrLoop lam simQ simPair fuel sel rem).Nodup := by
  induction fuel with
  | zero => intro sel rem h; simp [mmrLoop]
  | succ n ih =>
    intro sel rem h
    unfold mmrLoop
    cases hh : argmaxIdx (mmrScore lam simQ simPair sel) rem with
    | none => exact List.nodup_nil
    | some i =>
      refine List.nodup_cons.mpr ⟨?_, ih _ _ (h.erase i)⟩
      intro hmem
      have hin : i ∈ rem.erase i := mmrLoop_subset lam simQ simPair n _ _ i hmem
      exact (h.mem_erase_iff.mp hin).1 rfl

/-- With enough remaining candidates the MMR loop emits exactly `fuel`
indices. -/
theorem mmrLoop_length (lam : ℚ) (simQ : Nat → ℚ) (simPair : Nat → Nat → ℚ)
    (fuel : Nat) : ∀ sel rem, fuel ≤ rem.length →
      (mmrLoop lam simQ simPair fuel sel rem).length = fuel := by
  induction fuel with
  | zero => intro sel rem h; simp [mmrLoop]
  | succ n ih =>
    intro sel rem h
    unfold mmrLoop
    have hne : rem ≠ [] := by
      intro hr
      rw [hr] at h
      exact absurd h (by simp)
    obtain ⟨i, hi⟩ := Option.isSome_iff_exists.mp (argmaxIdx_isSome _ rem hne)
    have hmem := argmaxIdx_mem _ _ _ hi
    have hlen : (rem.erase i).length = rem.length - 1 :=
      List.length_erase_of_mem hmem
    have hstep : rem.length - 1 ≥ n := by omega
    rw [hi, List.length_cons, ih _ _ (by omega)]

/-- C2: the MMR rerank emits no index twice, has length exactly
min(k, |pool|); when one candidate is the single highest-scoring one with
respect to the query, it is the first element of the output, and for k = 1
the output is exactly that candidate (the diversity weight lam is positive,
and the first pick carries no redundancy penalty). -/
theorem mmr_rerank_properties (sim : List ℚ → List ℚ → ℚ) (lam : ℚ)
    (qVec : List ℚ) (docVecs : List (List ℚ)) (k i0 : Nat)
    (hlam : 0 < lam) (hk : 1 ≤ k) (hi0 : i0 < docVecs.length)
    (huniq : ∀ j < docVecs.length, j ≠ i0 →
      sim qVec (docVecs.getD j []) < sim qVec (docVecs.getD i0 [])) :
    (mmr sim lam qVec docVecs k).Nodup
    ∧ (mmr sim lam qVec docVecs k).length = min k docVecs.length
    ∧ (mmr sim lam qVec docVecs k).head? = some i0
    ∧ (k = 1 → mmr sim lam qVec docVecs k = [i0]) := by
  have hn1 : 0 < docVecs.length := Nat.lt_of_le_of_lt (Nat.zero_le i0) hi0
  have harg : argmaxIdx
      (mmrScore lam (fun i => sim qVec (docVecs.getD i []))
        (fun i j => sim (docVecs.getD i []) (docVecs.getD j [])) [])
      (List.range docVecs.length) = some i0 := by
    apply argmaxIdx_eq_of_unique
    · exact List.mem_range.mpr hi0
    · intro j hj hji
      have hlt := huniq j (List.mem_range.mp hj) hji
      unfold mmrScore maxSimSelected
      simp only [mul_zero, sub_zero]
      exact mul_lt_mul_of_pos_left hlt hlam
  obtain ⟨m, hm⟩ : ∃ m, min k docVecs.length = m + 1 :=
    ⟨min k docVecs.length - 1, by omega⟩
  have hmmr : mmr sim lam qVec docVecs k
      = i0 :: mmrLoop lam (fun i => sim qVec (docVecs.getD i []))
          (fun i j => sim (docVecs.getD i []) (docVecs.getD j [])) m
          ([] ++ [i0]) ((List.range docVecs.length).erase i0) := by
    unfold mmr
    rw [hm]
    exact mmrLoop_succ _ _ _ _ _ _ _ harg
  refine ⟨?_, ?_, ?_, ?_⟩
  · exact mmrLoop_nodup _ _ _ _ _ _ (List.nodup_range _)
  · refine mmrLoop_length _ _ _ _ _ _ ?_
    rw [List.length_range]
    exact min_le_right _ _
  · rw [hmmr]; rfl
  · intro hk1
    subst hk1
    have h1 : min 1 docVecs.length = 1 := by omega
    rw [h1] at hm
    have hm0 : m = 0 := by omega
    rw [hmmr, hm0]
    rfl

/-- A concrete rational similarity used in witnesses: the dot product. -/
def dotSim (a b : List ℚ) : ℚ :=
  (List.zipWith (· * ·) a b).foldl (· + ·) 0

/-- C2 witness: a two-candidate pool whose second candidate strictly
dominates, diversity weight one half, k = 2. -/
theorem mmr_rerank_properties_witness :
    (mmr dotSim (1 / 2) [1] [[1], [2]] 2).Nodup
    ∧ (mmr dotSim (1 / 2) [1] [[1], [2]] 2).length = min 2 2
    ∧ (mmr dotSim (1 / 2) [1] [[1], [2]] 2).head? = some 1
    ∧ (2 = 1 → mmr dotSim (1 / 2) [1] [[1], [2]] 2 = [1]) :=
  mmr_rerank_properties dotSim (1 / 2) [1] [[1], [2]] 2 1
    (by norm_num) (by norm_num) (by norm_num)
    (by
      intro j hj hne
      have hj2 : j < 2 := by simpa using hj
      interval_cases j
      · norm_num [dotSim]
      · exact absurd rfl hne)

/-- Modelled from the spec: `approx_token_count` of app/utils.py (file not
under src), the length-based heuristic the spec names: four characters per
approximate token. -/
def approx_token_count (s : String) : Nat :=
  s.length / 4

/-- The context-building loop of the ask endpoint (app/main.py, lines
56-62): keep the next selected document whenever the token count of the
single-newline join of the parts so far plus the document's own count stays
strictly below the budget; stop at the first violation, dropping everything
after it. -/
def assembleGo (budget : Nat) : List String → List String → List String
  | parts, [] => parts
  | parts, d :: rest =>
    if approx_token_count (String.intercalate "\n" parts)
        + approx_token_count d < budget then
      assembleGo budget (parts ++ [d]) rest
    else
      parts

/-- The documents actually kept by the budget loop. -/
def assembleParts (budget : Nat) (selected : List String) : List String :=
  assembleGo budget [] selected

/-- The assembled context (app/main.py, line 63): the kept documents joined
by a blank line (a double newline, while the loop budgets with a single
newline join). -/
def assembleContext (budget : Nat) (selected : List String) : String :=
  String.intercalate "\n\n" (assembleParts budget selected)

/-- The budgeting invariant the loop maintains: before each kept item, the
token count of the single-newline join of the previously kept items plus the
item's own count is strictly below the budget. -/
def BudgetOk (budget : Nat) (parts : List String) : Prop :=
  ∀ i < parts.length,
    approx_token_count (String.intercalate "\n" (parts.take i))
      + approx_token_count (parts.getD i "") < budget

/-- The loop only ever appends: its result is the accumulated parts followed
by a prefix of the remaining documents. -/
theorem assembleGo_append (budget : Nat) :
    ∀ ds parts, ∃ p, p <+: ds ∧ assembleGo budget parts ds = parts ++ p := by
  intro ds
  induction ds with
  | nil =>
    intro parts
    exact ⟨[], List.nil_prefix, by simp [assembleGo]⟩
  | cons d rest ih =>
    intro parts
    unfold assembleGo
    split
    · obtain ⟨p, hp, heq⟩ := ih (parts ++ [d])
      refine ⟨d :: p, List.cons_prefix_cons.mpr ⟨rfl, hp⟩, ?_⟩
      rw [heq]
      simp
    · exact ⟨[], List.nil_prefix, by simp⟩

/-- The loop preserves the budgeting invariant. -/
theorem assembleGo_budget (budget : Nat) :
    ∀ ds parts, BudgetOk budget parts →
      BudgetOk budget (assembleGo budget parts ds) := by
  intro ds
  induction ds with
  | nil =>
    intro parts h
    simpa [assembleGo] using h
  | cons d rest ih =>
    intro parts h
    unfold assembleGo
    split
    · next hcond =>
      refine ih (parts ++ [d]) ?_
      intro i hi
      rcases Nat.lt_or_ge i parts.length with hlt | hge
      · rw [List.take_append_eq_append_take,
          Nat.sub_eq_zero_of_le (le_of_lt hlt), List.take_zero,
          List.append_nil, List.getD_append _ _ _ _ hlt]
        exact h i hlt
      · have hieq : i = parts.length := by
          have hi2 : i < parts.length + 1 := by simpa using hi
          omega
        subst hieq
        rw [List.take_left' rfl, List.getD_append_right _ _ _ _ (le_refl _),
          Nat.sub_self]
        exact hcond
    · exact h

/-- C3 counterexample: at budget 3 and two five-character documents both
pass the budgeting check, yet the assembled context (joined with a double
newline) has an approximate token count of exactly the budget, although the
first document alone fits. -/
theorem assemble_budget_counterexample :
    approx_token_count "aaaaa" < 3
    ∧ ¬ approx_token_count (assembleContext 3 ["aaaaa", "bbbbb"]) < 3 := by
  decide

/-- C3 (amended): if the first selected document alone does not fit, the
context is empty; the kept documents are always a whole-item prefix of the
selection (no item is ever split); the budgeting invariant holds at each
kept item (the single-newline join of the earlier items plus the item stays
below the budget); and when at most one item is kept, the assembled context
itself stays strictly below a positive budget.  The strict bound on the
whole double-newline-joined context can fail once two or more items are
kept, because the loop budgets with a single-newline join. -/
theorem assemble_amended (budget : Nat) (selected : List String) :
    (∀ d rest, selected = d :: rest →
        ¬ approx_token_count d < budget → assembleContext budget selected = "")
    ∧ (∃ p, p <+: selected ∧ assembleParts budget selected = p)
    ∧ BudgetOk budget (assembleParts budget selected)
    ∧ (0 < budget → (assembleParts budget selected).length ≤ 1 →
        approx_token_count (assembleContext budget selected) < budget) := by
  have hbud : BudgetOk budget (assembleParts budget selected) := by
    refine assembleGo_budget budget selected [] ?_
    intro i hi
    exact absurd hi (Nat.not_lt_zero i)
  refine ⟨?_, ?_, hbud, ?_⟩
  · intro d rest hsel hnot
    subst hsel
    unfold assembleContext assembleParts assembleGo
    have hcond : ¬ (approx_token_count (String.intercalate "\n" ([] : List String))
        + approx_token_count d < budget) := by
      have h0 : approx_token_count (String.intercalate "\n" ([] : List String)) = 0 := rfl
      rw [h0, Nat.zero_add]
      exact hnot
    rw [if_neg hcond]
    rfl
  · obtain ⟨p, hp, heq⟩ := assembleGo_append budget selected []
    exact ⟨p, hp, by simpa using heq⟩
  · intro hb hlen
    cases hps : assembleParts budget selected with
    | nil =>
      unfold assembleContext
      rw [hps]
      exact hb
    | cons d tail =>
      have htail : tail = [] := by
        rw [hps] at hlen
        simpa using hlen
      subst htail
      have hok := hbud 0 (by rw [hps]; simp)
      rw [hps] at hok
      have h2 : approx_token_count (String.intercalate "\n" (List.take 0 [d])) = 0 := by
        rw [List.take_zero]
        exact rfl
      have h3 : List.getD [d] 0 "" = d := rfl
      rw [h2, h3, Nat.zero_add] at hok
      unfold assembleContext
      rw [hps]
      exact hok

/-- C3 witness: the amended theorem applied at budget 1 and a single
four-character document, whose token count does not fit: the context is
empty. -/
theorem assemble_amended_witness :
    assembleContext 1 ["aaaa"] = "" :=
  (assemble_amended 1 ["aaaa"]).1 "aaaa" [] rfl (by decide)

/-- The retrieval/selection/assembly slice of the ask endpoint
(app/main.py, lines 44-63), given the documents returned by the search:
when the pool is empty, empty context, zero used and empty selection;
otherwise embed each document, select min(10, |docs|) diverse documents via
MMR, record used = number of selected documents (before the budget loop
runs), and assemble the context under the budget.  The embedding backend is
the `embed` parameter; `sim` and `lam` parameterise the spec-modelled
reranker.  Returns (context, used, selected documents). -/
def askPipeline (sim : List ℚ → List ℚ → ℚ) (lam : ℚ)
    (embed : String → List ℚ) (budget : Nat) (qVec : List ℚ)
    (docs : List String) : String × Nat × List String :=
  if docs.isEmpty then ("", 0, [])
  else
    let docVecs := docs.map embed
    let selIdx := mmr sim lam qVec docVecs (min 10 docs.length)
    let selected := selIdx.map (fun i => docs.getD i "")
    let used := selected.length
    (assembleContext budget selected, used, selected)

/-- A concrete embedding for witnesses: one dimension holding the string
length. -/
def embedLen (s : String) : List ℚ :=
  [(s.length : ℚ)]

/-- C7 counterexample: with pool ["aaaaa"] and token budget 1, the
diversity selection holds one document, so the reported used count is 1,
while the budget loop keeps nothing: the assembled context is empty and
contains zero items. -/
theorem used_snippets_counterexample :
    (askPipeline dotSim 1 embedLen 1 [1] ["aaaaa"]).2.1 = 1
    ∧ (assembleParts 1 (askPipeline dotSim 1 embedLen 1 [1] ["aaaaa"]).2.2).length = 0
    ∧ (askPipeline dotSim 1 embedLen 1 [1] ["aaaaa"]).1 = ""
    ∧ (askPipeline dotSim 1 embedLen 1 [1] ["aaaaa"]).2.1
        ≠ (assembleParts 1 (askPipeline dotSim 1 embedLen 1 [1] ["aaaaa"]).2.2).length := by
  refine ⟨rfl, rfl, rfl, by decide⟩

/-- C7 (amended): used_snippets equals the size of the diversity selection,
recorded before the budget loop runs, and the number of documents the
budget loop actually keeps never exceeds it (but can be smaller, as the
counterexample shows). -/
theorem used_snippets_amended (sim : List ℚ → List ℚ → ℚ) (lam : ℚ)
    (embed : String → List ℚ) (budget : Nat) (qVec : List ℚ)
    (docs : List String) :
    (askPipeline sim lam embed budget qVec docs).2.1
      = (askPipeline sim lam embed budget qVec docs).2.2.length
    ∧ (assembleParts budget (askPipeline sim lam embed budget qVec docs).2.2).length
      ≤ (askPipeline sim lam embed budget qVec docs).2.1 := by
  have h1 : (askPipeline sim lam embed budget qVec docs).2.1
      = (askPipeline sim lam embed budget qVec docs).2.2.length := by
    unfold askPipeline
    split
    · rfl
    · rfl
  refine ⟨h1, ?_⟩
  obtain ⟨p, hp, heq⟩ := assembleGo_append budget
    ((askPipeline sim lam embed budget qVec docs).2.2) []
  rw [h1]
  unfold assembleParts
  rw [heq]
  simpa using hp.length_le

/-- The ask endpoint's retrieval flow (app/main.py, lines 38-63): the
candidate pool is requested from hybrid_search with k = max(15, req.k), and
the pipeline then runs on the texts of the returned results. -/
def ask (search : SearchBody → Except String (List EsHit))
    (sim : List ℚ → List ℚ → ℚ) (lam : ℚ) (embed : String → List ℚ)
    (budget : Nat) (project_id query : String) (qVec : List ℚ)
    (reqK : Nat) : Except String (String × Nat × List String) :=
  (hybrid_search search project_id query qVec (max 15 reqK)).map
    (fun results => askPipeline sim lam embed budget qVec
      (results.map SearchResult.text))

/-- C10: ask requests its candidate pool from hybrid_search with an
effective k of max(15, requested k), and the diversity selection passed on
to context assembly always has exactly min(10, pool size) documents, hence
at most 10, for every pool. -/
theorem ask_k_policy (search : SearchBody → Except String (List EsHit))
    (sim : List ℚ → List ℚ → ℚ) (lam : ℚ) (embed : String → List ℚ)
    (budget : Nat) (project_id query : String) (qVec : List ℚ)
    (reqK : Nat) :
    ask search sim lam embed budget project_id query qVec reqK
      = (hybrid_search search project_id query qVec (max 15 reqK)).map
          (fun results => askPipeline sim lam embed budget qVec
            (results.map SearchResult.text))
    ∧ (∀ docs : List String,
        (askPipeline sim lam embed budget qVec docs).2.2.length
          = min 10 docs.length)
    ∧ (∀ docs : List String,
        (askPipeline sim lam embed budget qVec docs).2.2.length ≤ 10) := by
  have hsel : ∀ docs : List String,
      (askPipeline sim lam embed budget qVec docs).2.2.length
        = min 10 docs.length := by
    intro docs
    unfold askPipeline
    split
    · next hempty =>
      rw [List.isEmpty_iff.mp hempty]
      rfl
    · next hempty =>
      have hlen := mmrLoop_length lam
        (fun i => sim qVec ((docs.map embed).getD i []))
        (fun i j => sim ((docs.map embed).getD i []) ((docs.map embed).getD j []))
        (min (min 10 docs.length) (docs.map embed).length) []
        (List.range (docs.map embed).length)
        (by rw [List.length_range, List.length_map]; omega)
      show (List.map _ (mmr sim lam qVec (docs.map embed) (min 10 docs.length))).length = _
      rw [List.length_map]
      unfold mmr
      rw [hlen, List.length_map, Nat.min_assoc, Nat.min_self]
  refine ⟨rfl, hsel, ?_⟩
  intro docs
  rw [hsel docs]
  exact Nat.min_le_left _ _

/-- Abstract index-count semantics of the store's existence check: the
state is the number of copies of the collection. -/
def indices_exists (n : Nat) : Bool :=
  decide (0 < n)

/-- Abstract creation: fails with the already-exists error when the
collection is already there, otherwise adds it. -/
def indices_create (n : Nat) : Except String Nat :=
  if 0 < n then .error "resource_already_exists_exception" else .ok (n + 1)

/-- The function ensure_index of app/elastic_memory.py (lines 15-34): check
existence, create only when absent.  There is no error handling around the
creation call. -/
def ensure_index (n : Nat) : Except String Nat :=
  if ¬ indices_exists n then indices_create n else .ok n

/-- The same control flow with the store's two answers as parameters: the
code consults the existence check, and in the false case returns whatever
creation returns, errors included. -/
def ensure_index_gen (hasIndex : Bool) (create : Except String Unit) :
    Except String Unit :=
  if ¬ hasIndex then create else .ok ()

/-- C8 counterexample: when the existence check answers false but creation
then fails with the already-exists error (the concurrent race the spec
describes), ensure_index surfaces that error instead of treating it as
success: nothing catches it. -/
theorem ensure_index_already_exists_surfaced :
    ensure_index_gen false (.error "resource_already_exists_exception")
      = .error "resource_already_exists_exception"
    ∧ ensure_index_gen false (.error "resource_already_exists_exception")
      ≠ .ok () :=
  ⟨rfl, by simp [ensure_index_gen]⟩

/-- C8 (amended): two sequential calls of ensure_index starting from at
most one collection never raise and leave exactly one collection, because
the existence check skips creation the second time; but an already-exists
failure raised by creation itself is propagated, not treated as success. -/
theorem ensure_index_twice (n : Nat) (h : n ≤ 1) :
    (ensure_index n).bind ensure_index = .ok 1
    ∧ ensure_index_gen false (.error "resource_already_exists_exception")
        = .error "resource_already_exists_exception" := by
  refine ⟨?_, rfl⟩
  interval_cases n
  · rfl
  · rfl

/-- C8 witness: the amended theorem applied at an initially empty store. -/
theorem ensure_index_twice_witness :
    (ensure_index 0).bind ensure_index = .ok 1
    ∧ ensure_index_gen false (.error "resource_already_exists_exception")
        = .error "resource_already_exists_exception" :=
  ensure_index_twice 0 (by decide)

/-- Field values of a stored document, as written by the store client. -/
inductive FieldValue where
  | str (s : String)
  | strs (l : List String)
  | vec (v : List ℚ)
deriving Repr, DecidableEq

/-- The document dict built by upsert_chunk (app/elastic_memory.py, lines
38-43): project_id, text, tags (defaulting to the empty list) and
embedding.  No created_at is written. -/
def upsert_doc (project_id text : String) (embedding : List ℚ)
    (tags : Option (List String)) : List (String × FieldValue) :=
  [("project_id", .str project_id),
   ("text", .str text),
   ("tags", .strs (tags.getD [])),
   ("embedding", .vec embedding)]

/-- The fields declared by the index mapping of ensure_index (lines
16-32). -/
def mappingFields : List String :=
  ["project_id", "text", "chunk_id", "tags", "embedding", "created_at"]

/-- C9 counterexample: the document stored for a concrete chunk carries no
created_at field, although the index mapping declares one. -/
theorem upsert_missing_created_at :
    ("created_at" ∈ mappingFields)
    ∧ ¬ ("created_at" ∈ (upsert_doc "p1" "hello" [1] none).map Prod.fst) := by
  decide

/-- C9 (amended): every stored document contains exactly the four fields
project_id, text, tags and embedding; created_at is declared in the index
mapping but upsert_chunk never writes it. -/
theorem upsert_doc_fields (project_id text : String) (embedding : List ℚ)
    (tags : Option (List String)) :
    (upsert_doc project_id text embedding tags).map Prod.fst
      = ["project_id", "text", "tags", "embedding"]
    ∧ "created_at" ∈ mappingFields
    ∧ "created_at" ∉ (upsert_doc project_id text embedding tags).map Prod.fst := by
  refine ⟨rfl, by decide, ?_⟩
  rw [show (upsert_doc project_id text embedding tags).map Prod.fst
      = ["project_id", "text", "tags", "embedding"] from rfl]
  decide

end MemoraAI
